import Mathlib

/-!
Verification of the CompressibleEuler1D finite-volume solver core.

This file shallow-embeds the numerical core of the repository
(state types, ideal-gas equation of state, slope limiters, MUSCL
reconstruction, numerical flux schemes, mesh construction, boundary
ghost-cell fills, timestep control and right-hand-side assembly)
over the real numbers, with each definition translated from the
corresponding C++ source, and proves the stated properties about it.
The C++ type Real (double) is modelled as the mathematical reals;
floating-point arithmetic is idealized as exact real arithmetic.
-/

namespace Euler1D

noncomputable section

/-- Conservative variables (rho, rho*u, E) from core/types.hpp. -/
@[ext] structure ConservativeVars where
  rho : ℝ
  rho_u : ℝ
  E : ℝ

namespace ConservativeVars

/-- Componentwise addition (operator+ in types.hpp). -/
def add (a b : ConservativeVars) : ConservativeVars :=
  ⟨a.rho + b.rho, a.rho_u + b.rho_u, a.E + b.E⟩

/-- Componentwise subtraction (operator- in types.hpp). -/
def sub (a b : ConservativeVars) : ConservativeVars :=
  ⟨a.rho - b.rho, a.rho_u - b.rho_u, a.E - b.E⟩

/-- Scalar multiplication (operator* in types.hpp). -/
def smul (s : ℝ) (a : ConservativeVars) : ConservativeVars :=
  ⟨s * a.rho, s * a.rho_u, s * a.E⟩

/-- Division by a scalar (operator/ in types.hpp). -/
def divs (a : ConservativeVars) (s : ℝ) : ConservativeVars :=
  ⟨a.rho / s, a.rho_u / s, a.E / s⟩

/-- Zero-initialized value (default constructor in types.hpp). -/
def zero : ConservativeVars := ⟨0, 0, 0⟩

instance : Add ConservativeVars := ⟨add⟩
instance : Sub ConservativeVars := ⟨sub⟩
instance : SMul ℝ ConservativeVars := ⟨smul⟩
instance : HDiv ConservativeVars ℝ ConservativeVars := ⟨divs⟩

end ConservativeVars

/-- Primitive variables (rho, u, p) from core/types.hpp. -/
@[ext] structure PrimitiveVars where
  rho : ℝ
  u : ℝ
  p : ℝ

/-- Numerical epsilon from core/constants.hpp (double-precision path). -/
def constantsEpsilon : ℝ := 1e-14

/-- Ideal-gas equation of state (eos.hpp), parameterized by gamma. -/
structure IdealGas where
  gamma : ℝ

namespace IdealGas

/-- Pressure from conservative variables (eos.hpp). -/
def pressure (eos : IdealGas) (U : ConservativeVars) : ℝ :=
  let rho := U.rho
  let u := U.rho_u / rho
  let kinetic := (0.5 : ℝ) * rho * u * u
  let internal := U.E - kinetic
  (eos.gamma - 1) * internal

/-- Sound speed from density and pressure (eos.hpp). -/
def sound_speed (eos : IdealGas) (rho p : ℝ) : ℝ :=
  Real.sqrt (eos.gamma * p / rho)

/-- Sound speed from conservative variables (eos.hpp). -/
def sound_speedU (eos : IdealGas) (U : ConservativeVars) : ℝ :=
  eos.sound_speed U.rho (eos.pressure U)

/-- Specific internal energy from pressure and density (eos.hpp). -/
def internal_energy (eos : IdealGas) (rho p : ℝ) : ℝ :=
  p / ((eos.gamma - 1) * rho)

/-- Total energy from primitive variables (eos.hpp). -/
def total_energy (eos : IdealGas) (W : PrimitiveVars) : ℝ :=
  let e_internal := eos.internal_energy W.rho W.p
  let e_kinetic := (0.5 : ℝ) * W.u * W.u
  W.rho * (e_internal + e_kinetic)

/-- Conversion from primitive to conservative variables (eos.hpp). -/
def to_conservative (eos : IdealGas) (W : PrimitiveVars) : ConservativeVars :=
  ⟨W.rho, W.rho * W.u, eos.total_energy W⟩

/-- Conversion from conservative to primitive variables (eos.hpp). -/
def to_primitive (eos : IdealGas) (U : ConservativeVars) : PrimitiveVars :=
  let rho := U.rho
  let u := U.rho_u / rho
  let p := eos.pressure U
  ⟨rho, u, p⟩

/-- Physical Euler flux F(U) (eos.hpp). -/
def flux (eos : IdealGas) (U : ConservativeVars) : ConservativeVars :=
  let rho := U.rho
  let u := U.rho_u / rho
  let p := eos.pressure U
  ⟨U.rho_u, U.rho_u * u + p, (U.E + p) * u⟩

end IdealGas

/-- NoLimiter from limiter.hpp: always 0 (first order). -/
def NoLimiter (_ : ℝ) : ℝ := 0

/-- Minmod limiter from limiter.hpp: max(0, min(1, r)). -/
def MinmodLimiter (r : ℝ) : ℝ := max 0 (min 1 r)

/-- Van Leer limiter from limiter.hpp: (r + abs r) / (1 + abs r). -/
def VanLeerLimiter (r : ℝ) : ℝ := (r + |r|) / (1 + |r|)

/-- Superbee limiter from limiter.hpp: max(0, min(2r, 1), min(r, 2)). -/
def SuperbeeLimiter (r : ℝ) : ℝ := max (max 0 (min (2 * r) 1)) (min r 2)

/-- Monotonized-central limiter from limiter.hpp: max(0, min(2r, (1+r)/2, 2)). -/
def MCLimiter (r : ℝ) : ℝ := max 0 (min (min (2 * r) ((1 + r) / 2)) 2)

/-- Runtime limiter selection (LimiterVariant in limiter.hpp). -/
inductive LimiterVariant where
  | noLimiter
  | minmod
  | vanLeer
  | superbee
  | mc

/-- Dispatch of apply_limiter over the limiter variant (limiter.hpp). -/
def apply_limiter (lim : LimiterVariant) (r : ℝ) : ℝ :=
  match lim with
  | .noLimiter => NoLimiter r
  | .minmod => MinmodLimiter r
  | .vanLeer => VanLeerLimiter r
  | .superbee => SuperbeeLimiter r
  | .mc => MCLimiter r

/-- Local Lax-Friedrichs flux (LLFFlux in flux.hpp). -/
def LLFFlux (U_L U_R : ConservativeVars) (eos : IdealGas) : ConservativeVars :=
  let F_L := eos.flux U_L
  let F_R := eos.flux U_R
  let u_L := U_L.rho_u / U_L.rho
  let u_R := U_R.rho_u / U_R.rho
  let c_L := eos.sound_speedU U_L
  let c_R := eos.sound_speedU U_R
  let lambda_max := max (|u_L| + c_L) (|u_R| + c_R)
  (0.5 : ℝ) • (F_L + F_R) - ((0.5 : ℝ) * lambda_max) • (U_R - U_L)

/-- Rusanov flux (RusanovFlux in flux.hpp): delegates to LLFFlux. -/
def RusanovFlux (U_L U_R : ConservativeVars) (eos : IdealGas) : ConservativeVars :=
  LLFFlux U_L U_R eos

/-- HLL flux with Davis wave-speed estimates (HLLFlux in flux.hpp). -/
def HLLFlux (U_L U_R : ConservativeVars) (eos : IdealGas) : ConservativeVars :=
  let rho_L := U_L.rho
  let u_L := U_L.rho_u / rho_L
  let p_L := eos.pressure U_L
  let c_L := eos.sound_speed rho_L p_L
  let rho_R := U_R.rho
  let u_R := U_R.rho_u / rho_R
  let p_R := eos.pressure U_R
  let c_R := eos.sound_speed rho_R p_R
  let S_L := min (u_L - c_L) (u_R - c_R)
  let S_R := max (u_L + c_L) (u_R + c_R)
  let F_L := eos.flux U_L
  let F_R := eos.flux U_R
  if 0 ≤ S_L then F_L
  else if S_R ≤ 0 then F_R
  else (S_R • F_L - S_L • F_R + (S_L * S_R) • (U_R - U_L)) / (S_R - S_L)

/-- HLLC flux with contact restoration (HLLCFlux in flux.hpp). -/
def HLLCFlux (U_L U_R : ConservativeVars) (eos : IdealGas) : ConservativeVars :=
  let rho_L := U_L.rho
  let u_L := U_L.rho_u / rho_L
  let p_L := eos.pressure U_L
  let c_L := eos.sound_speed rho_L p_L
  let E_L := U_L.E
  let rho_R := U_R.rho
  let u_R := U_R.rho_u / rho_R
  let p_R := eos.pressure U_R
  let c_R := eos.sound_speed rho_R p_R
  let E_R := U_R.E
  let S_L := min (u_L - c_L) (u_R - c_R)
  let S_R := max (u_L + c_L) (u_R + c_R)
  let S_star := (p_R - p_L + rho_L * u_L * (S_L - u_L) - rho_R * u_R * (S_R - u_R)) /
      (rho_L * (S_L - u_L) - rho_R * (S_R - u_R))
  let F_L := eos.flux U_L
  let F_R := eos.flux U_R
  if 0 ≤ S_L then F_L
  else if S_R ≤ 0 then F_R
  else if 0 ≤ S_star then
    let coeff := rho_L * (S_L - u_L) / (S_L - S_star)
    let U_star_L : ConservativeVars :=
      ⟨coeff, coeff * S_star,
        coeff * (E_L / rho_L + (S_star - u_L) * (S_star + p_L / (rho_L * (S_L - u_L))))⟩
    F_L + S_L • (U_star_L - U_L)
  else
    let coeff := rho_R * (S_R - u_R) / (S_R - S_star)
    let U_star_R : ConservativeVars :=
      ⟨coeff, coeff * S_star,
        coeff * (E_R / rho_R + (S_star - u_R) * (S_star + p_R / (rho_R * (S_R - u_R))))⟩
    F_R + S_R • (U_star_R - U_R)

/-- Maximum and minimum wave-speed magnitudes over both states
(MoversLEFlux::max_min_eig_value in flux.hpp); the pair is (max, min). -/
def max_min_eig_value (ul ur cl cr : ℝ) : ℝ × ℝ :=
  let L1r := |ur + cr|
  let L1l := |ul + cl|
  let L2r := |ur|
  let L2l := |ul|
  let L3r := |ur - cr|
  let L3l := |ul - cl|
  let max_eig_va := max (max L1r (max L2r L3r)) (max L1l (max L2l L3l))
  let min_eig_val := min (min L1r (min L2r L3r)) (min L1l (min L2l L3l))
  (max_eig_va, min_eig_val)

/-- Per-component adaptive dissipation coefficient
(MoversLEFlux::compute_dissipation in flux.hpp, with its hardcoded 1e-6). -/
def compute_dissipation (Fr Fl Ur Ul L_max L_min : ℝ) : ℝ :=
  let epsilon : ℝ := 1e-6
  if |Fr - Fl| < epsilon then 0
  else if |Ur - Ul| < epsilon then L_min
  else
    let S := if epsilon < |Ur - Ul| ∧ epsilon < |Fr - Fl|
      then |(Fr - Fl) / (Ur - Ul)| else L_min
    if S < epsilon then 0
    else if L_max ≤ S then L_max
    else if S ≤ L_min then L_min
    else S

/-- MoversLE flux with componentwise adaptive dissipation
(MoversLEFlux in flux.hpp). -/
def MoversLEFlux (U_L U_R : ConservativeVars) (eos : IdealGas) : ConservativeVars :=
  let F_L := eos.flux U_L
  let F_R := eos.flux U_R
  let u_L := U_L.rho_u / U_L.rho
  let u_R := U_R.rho_u / U_R.rho
  let c_L := eos.sound_speedU U_L
  let c_R := eos.sound_speedU U_R
  let lambda_max_min := max_min_eig_value u_L u_R c_L c_R
  let flux_component := fun (flux_R flux_L U_R_var U_L_var : ℝ) =>
    let diss := compute_dissipation flux_R flux_L U_R_var U_L_var
      lambda_max_min.1 lambda_max_min.2
    (0.5 : ℝ) * (flux_L + flux_R) - (0.5 : ℝ) * diss * (U_R_var - U_L_var)
  ⟨flux_component F_R.rho F_L.rho U_R.rho U_L.rho,
   flux_component F_R.rho_u F_L.rho_u U_R.rho_u U_L.rho_u,
   flux_component F_R.E F_L.E U_R.E U_L.E⟩

/-- Configured flux scheme enumeration (FluxScheme in config_types.hpp). -/
inductive FluxScheme where
  | LLF
  | Rusanov
  | HLL
  | HLLC
  | MoversLE

/-- Runtime flux selection (FluxVariant in flux.hpp). -/
inductive FluxVariant where
  | llf
  | rusanov
  | hll
  | hllc
  | moversLE

/-- Flux factory (create_flux in src/solver/solver.cpp and
src/solver/factory.cpp). The switch handles LLF, Rusanov, HLL and HLLC;
FluxScheme::MoversLE has no case, so control falls through to the
trailing return of an LLFFlux value. -/
def create_flux (scheme : FluxScheme) : FluxVariant :=
  match scheme with
  | .LLF => .llf
  | .Rusanov => .rusanov
  | .HLL => .hll
  | .HLLC => .hllc
  | .MoversLE => .llf

/-- Single dispatch point for numerical fluxes (compute_flux in flux.hpp). -/
def compute_flux (v : FluxVariant) (U_L U_R : ConservativeVars)
    (eos : IdealGas) : ConservativeVars :=
  match v with
  | .llf => LLFFlux U_L U_R eos
  | .rusanov => RusanovFlux U_L U_R eos
  | .hll => HLLFlux U_L U_R eos
  | .hllc => HLLCFlux U_L U_R eos
  | .moversLE => MoversLEFlux U_L U_R eos

/-- Multiplication of a state by a scalar on the right (operator* in
types.hpp). -/
def ConservativeVars.muls (a : ConservativeVars) (s : ℝ) : ConservativeVars :=
  ⟨a.rho * s, a.rho_u * s, a.E * s⟩

instance : HMul ConservativeVars ℝ ConservativeVars := ⟨ConservativeVars.muls⟩

/-- Componentwise MUSCL face extrapolation: the loop body of
MUSCLReconstruction::reconstruct in muscl.hpp for one physical component k,
returning (W_L[k], W_R[k]). -/
def musclComponent (limiter : ℝ → ℝ) (w_im1 w_i w_ip1 w_ip2 : ℝ) : ℝ × ℝ :=
  let delta_L := w_i - w_im1
  let delta_R_left := w_ip1 - w_i
  let r_L := if constantsEpsilon < |delta_R_left| then delta_L / delta_R_left else 0
  let phi_L := limiter r_L
  let wL := w_i + (0.5 : ℝ) * phi_L * delta_R_left
  let delta_L_right := w_ip1 - w_i
  let delta_R := w_ip2 - w_ip1
  let r_R := if constantsEpsilon < |delta_L_right| then delta_R / delta_L_right else 0
  let phi_R := limiter r_R
  let wR := w_ip1 - (0.5 : ℝ) * phi_R * delta_L_right
  (wL, wR)

/-- MUSCL reconstruction at interface i+1/2 from the 4-cell stencil
i-1, i, i+1, i+2 (MUSCLReconstruction::reconstruct in muscl.hpp),
componentwise over rho, u, p. -/
def MUSCLReconstruct (W : ℕ → PrimitiveVars) (i : ℕ) (limiter : ℝ → ℝ) :
    PrimitiveVars × PrimitiveVars :=
  let W_im1 := W (i - 1)
  let W_i := W i
  let W_ip1 := W (i + 1)
  let W_ip2 := W (i + 2)
  let rhoLR := musclComponent limiter W_im1.rho W_i.rho W_ip1.rho W_ip2.rho
  let uLR := musclComponent limiter W_im1.u W_i.u W_ip1.u W_ip2.u
  let pLR := musclComponent limiter W_im1.p W_i.p W_ip1.p W_ip2.p
  (⟨rhoLR.1, uLR.1, pLR.1⟩, ⟨rhoLR.2, uLR.2, pLR.2⟩)

/-- MUSCL reconstruction dispatching a runtime limiter variant
(the std::visit overload of reconstruct in muscl.hpp). -/
def MUSCLReconstructV (W : ℕ → PrimitiveVars) (i : ℕ) (lim : LimiterVariant) :
    PrimitiveVars × PrimitiveVars :=
  MUSCLReconstruct W i (apply_limiter lim)

/-- First-order reconstruction (FirstOrderReconstruction in muscl.hpp). -/
def FirstOrderReconstruct (W : ℕ → PrimitiveVars) (i : ℕ) :
    PrimitiveVars × PrimitiveVars :=
  (W i, W (i + 1))

/-- Ghost cells per side (Mesh1D::num_ghosts in mesh.hpp). -/
def num_ghosts : ℕ := 2

/-- Mesh data stored by a successfully constructed Mesh1D (mesh.hpp). -/
structure Mesh1D where
  xmin : ℝ
  xmax : ℝ
  num_cells : ℤ
  dx : ℝ

/-- Mesh constructor (Mesh1D::Mesh1D in mesh.cpp): throws invalid_argument
for a non-positive cell count or xmax <= xmin, modelled as Except.error;
otherwise stores dx = (xmax - xmin) / num_cells. -/
def mkMesh1D (xmin xmax : ℝ) (num_cells : ℤ) : Except String Mesh1D :=
  if num_cells ≤ 0 then .error "num_cells must be positive"
  else if xmax ≤ xmin then .error "xmax must be greater than xmin"
  else .ok ⟨xmin, xmax, num_cells, (xmax - xmin) / (num_cells : ℝ)⟩

/-- First interior cell index (Mesh1D::first_interior in mesh.hpp). -/
def first_interior : ℕ := num_ghosts

/-- Last interior cell index for interior cell count N
(Mesh1D::last_interior in mesh.hpp). -/
def last_interior (N : ℕ) : ℕ := num_ghosts + N - 1

/-- Total cell count including ghosts (Mesh1D::total_cells in mesh.hpp). -/
def total_cells (N : ℕ) : ℕ := N + 2 * num_ghosts

/-- Interior-membership predicate (Mesh1D::is_interior in mesh.hpp). -/
def is_interior (N : ℕ) (i : ℕ) : Prop :=
  first_interior ≤ i ∧ i ≤ last_interior N

instance (N i : ℕ) : Decidable (is_interior N i) := by
  unfold is_interior
  infer_instance

/-- Transmissive left fill (TransmissiveBoundary::apply_left in
boundary.hpp): the loop runs i = first_interior-1 down to 0, copying the
first interior cell into each ghost cell. -/
def transmissive_apply_left (U : ℕ → ConservativeVars) : ℕ → ConservativeVars :=
  (List.range first_interior).reverse.foldl
    (fun f i => Function.update f i (f first_interior)) U

/-- Transmissive right fill (TransmissiveBoundary::apply_right in
boundary.hpp): the loop runs i = last_interior+1 up to total_cells-1,
copying the last interior cell. -/
def transmissive_apply_right (U : ℕ → ConservativeVars) (N : ℕ) : ℕ → ConservativeVars :=
  (List.range' (last_interior N + 1) (total_cells N - (last_interior N + 1))).foldl
    (fun f i => Function.update f i (f (last_interior N))) U

/-- Reflective left fill (ReflectiveBoundary::apply_left in boundary.hpp):
ghost cell first_interior-1-g copies density and energy from cell
first_interior+g and negates its momentum, for g = 0..num_ghosts-1. -/
def reflective_apply_left (U : ℕ → ConservativeVars) : ℕ → ConservativeVars :=
  (List.range num_ghosts).foldl
    (fun f g =>
      let ghost_idx := first_interior - 1 - g
      let interior_idx := first_interior + g
      let interior := f interior_idx
      Function.update f ghost_idx ⟨interior.rho, -interior.rho_u, interior.E⟩) U

/-- Reflective right fill (ReflectiveBoundary::apply_right in boundary.hpp):
ghost cell last_interior+1+g mirrors cell last_interior-g with negated
momentum, for g = 0..num_ghosts-1. -/
def reflective_apply_right (U : ℕ → ConservativeVars) (N : ℕ) : ℕ → ConservativeVars :=
  (List.range num_ghosts).foldl
    (fun f g =>
      let ghost_idx := last_interior N + 1 + g
      let interior_idx := last_interior N - g
      let interior := f interior_idx
      Function.update f ghost_idx ⟨interior.rho, -interior.rho_u, interior.E⟩) U

/-- Periodic left fill (PeriodicBoundary::apply_left in boundary.hpp). -/
def periodic_apply_left (U : ℕ → ConservativeVars) (N : ℕ) : ℕ → ConservativeVars :=
  (List.range num_ghosts).foldl
    (fun f g => Function.update f (first_interior - 1 - g) (f (last_interior N - g))) U

/-- Periodic right fill (PeriodicBoundary::apply_right in boundary.hpp). -/
def periodic_apply_right (U : ℕ → ConservativeVars) (N : ℕ) : ℕ → ConservativeVars :=
  (List.range num_ghosts).foldl
    (fun f g => Function.update f (last_interior N + 1 + g) (f (first_interior + g))) U

/-- Runtime boundary selection (BoundaryVariant in boundary.hpp). -/
inductive BoundaryVariant where
  | transmissive
  | reflective
  | periodic

/-- Left-boundary dispatch (apply_left_boundary in boundary.hpp). -/
def apply_left_boundary (bc : BoundaryVariant) (U : ℕ → ConservativeVars) (N : ℕ) :
    ℕ → ConservativeVars :=
  match bc with
  | .transmissive => transmissive_apply_left U
  | .reflective => reflective_apply_left U
  | .periodic => periodic_apply_left U N

/-- Right-boundary dispatch (apply_right_boundary in boundary.hpp). -/
def apply_right_boundary (bc : BoundaryVariant) (U : ℕ → ConservativeVars) (N : ℕ) :
    ℕ → ConservativeVars :=
  match bc with
  | .transmissive => transmissive_apply_right U N
  | .reflective => reflective_apply_right U N
  | .periodic => periodic_apply_right U N

/-- Wave speed |u| + c of one cell, as read in the loop of
Solver::compute_dt (solver.cpp). -/
def interior_speed (eos : IdealGas) (U : ℕ → ConservativeVars) (i : ℕ) : ℝ :=
  |(U i).rho_u / (U i).rho| + eos.sound_speedU (U i)

/-- Maximum wave speed accumulated by Solver::compute_dt: a fold of max
starting from 0 over the interior cells first_interior .. last_interior
(the loop runs N iterations for interior cell count N). -/
def max_wave_speed (eos : IdealGas) (U : ℕ → ConservativeVars) (N : ℕ) : ℝ :=
  ((List.range N).map fun k => interior_speed eos U (first_interior + k)).foldl max 0

/-- Timestep computation (Solver::compute_dt in solver.cpp): CFL * dx
divided by the maximum interior wave speed, with the guard that a maximum
below the numerical epsilon is replaced by 1. -/
def compute_dt (cfl dx : ℝ) (eos : IdealGas) (U : ℕ → ConservativeVars) (N : ℕ) : ℝ :=
  let max_speed := max_wave_speed eos U N
  let max_speed := if max_speed < constantsEpsilon then 1 else max_speed
  cfl * dx / max_speed

/-- Interface flux computed at loop index i of the flux loop in
Solver::compute_rhs (stored into fluxes[i+1]): second order reconstructs
with MUSCL and converts to conservative states, first order takes the
adjacent cells, then the configured scheme is applied. -/
def interface_flux (fluxv : FluxVariant) (limiterv : LimiterVariant) (order : ℤ)
    (eos : IdealGas) (U : ℕ → ConservativeVars) (W : ℕ → PrimitiveVars) (i : ℕ) :
    ConservativeVars :=
  if 2 ≤ order then
    let WLR := MUSCLReconstructV W i limiterv
    compute_flux fluxv (eos.to_conservative WLR.1) (eos.to_conservative WLR.2) eos
  else
    compute_flux fluxv (U i) (U (i + 1)) eos

/-- Spatial right-hand side (Solver::compute_rhs in solver.cpp): refreshes
the primitive scratch array from U, fills the interface flux buffer for
loop indices first_interior-1 .. last_interior (N+1 interfaces, stored at
indices first_interior .. first_interior+N), zeroes the whole output
buffer, then writes the flux divergence (F_left - F_right) / dx for the
interior cells. fluxes0 and dU0 are the scratch buffers' pre-call
contents; the result is the written derivative buffer. -/
def compute_rhs (fluxv : FluxVariant) (limiterv : LimiterVariant) (order : ℤ)
    (eos : IdealGas) (dx : ℝ) (N : ℕ) (U : ℕ → ConservativeVars)
    (fluxes0 dU0 : ℕ → ConservativeVars) : ℕ → ConservativeVars :=
  let W := fun i => eos.to_primitive (U i)
  let fluxes := (List.range (N + 1)).foldl
    (fun f k => Function.update f (first_interior + k)
      (interface_flux fluxv limiterv order eos U W (first_interior - 1 + k))) fluxes0
  let inv_dx := 1 / dx
  let dU_zeroed := (List.range (total_cells N)).foldl
    (fun d i => Function.update d i ConservativeVars.zero) dU0
  (List.range N).foldl
    (fun d k => Function.update d (first_interior + k)
      ((fluxes (first_interior + k) - fluxes (first_interior + k + 1)) * inv_dx))
    dU_zeroed

/-- Concrete index-dependent field used to exercise boundary fills. -/
def indexField (i : ℕ) : ConservativeVars := ⟨(i : ℝ) + 1, (i : ℝ), (i : ℝ)⟩

/-- Right-hand-side callback (the rhs_func lambda in Solver::run,
solver.cpp): copies the input state, applies the left then right boundary
condition to the copy, and evaluates compute_rhs on it. -/
def rhs_func (bcL bcR : BoundaryVariant) (fluxv : FluxVariant)
    (limiterv : LimiterVariant) (order : ℤ) (eos : IdealGas) (dx : ℝ) (N : ℕ)
    (U_in : ℕ → ConservativeVars) (fluxes0 dU0 : ℕ → ConservativeVars) :
    ℕ → ConservativeVars :=
  let U_temp := apply_right_boundary bcR (apply_left_boundary bcL U_in N) N
  compute_rhs fluxv limiterv order eos dx N U_temp fluxes0 dU0

end

section ProjectionLemmas

@[simp] theorem ConservativeVars.add_rho (a b : ConservativeVars) :
    (a + b).rho = a.rho + b.rho := rfl

@[simp] theorem ConservativeVars.add_rho_u (a b : ConservativeVars) :
    (a + b).rho_u = a.rho_u + b.rho_u := rfl

@[simp] theorem ConservativeVars.add_E (a b : ConservativeVars) :
    (a + b).E = a.E + b.E := rfl

@[simp] theorem ConservativeVars.sub_rho (a b : ConservativeVars) :
    (a - b).rho = a.rho - b.rho := rfl

@[simp] theorem ConservativeVars.sub_rho_u (a b : ConservativeVars) :
    (a - b).rho_u = a.rho_u - b.rho_u := rfl

@[simp] theorem ConservativeVars.sub_E (a b : ConservativeVars) :
    (a - b).E = a.E - b.E := rfl

@[simp] theorem ConservativeVars.smul_rho (s : ℝ) (a : ConservativeVars) :
    (s • a).rho = s * a.rho := rfl

@[simp] theorem ConservativeVars.smul_rho_u (s : ℝ) (a : ConservativeVars) :
    (s • a).rho_u = s * a.rho_u := rfl

@[simp] theorem ConservativeVars.smul_E (s : ℝ) (a : ConservativeVars) :
    (s • a).E = s * a.E := rfl

@[simp] theorem ConservativeVars.divs_rho (a : ConservativeVars) (s : ℝ) :
    (a / s).rho = a.rho / s := rfl

@[simp] theorem ConservativeVars.divs_rho_u (a : ConservativeVars) (s : ℝ) :
    (a / s).rho_u = a.rho_u / s := rfl

@[simp] theorem ConservativeVars.divs_E (a : ConservativeVars) (s : ℝ) :
    (a / s).E = a.E / s := rfl

@[simp] theorem ConservativeVars.zero_rho : (ConservativeVars.zero).rho = 0 := rfl

@[simp] theorem ConservativeVars.zero_rho_u : (ConservativeVars.zero).rho_u = 0 := rfl

@[simp] theorem ConservativeVars.zero_E : (ConservativeVars.zero).E = 0 := rfl

end ProjectionLemmas

/-- C3: for every primitive state with positive density and pressure and
ideal-gas gamma above one, to_primitive (to_conservative W) recovers W
exactly in real arithmetic. -/
theorem C3_eos_round_trip (eos : IdealGas) (W : PrimitiveVars)
    (hgamma : 1 < eos.gamma) (hrho : 0 < W.rho) (hp : 0 < W.p) :
    eos.to_primitive (eos.to_conservative W) = W := by
  have hg : eos.gamma - 1 ≠ 0 := sub_ne_zero.mpr (ne_of_gt hgamma)
  have hr : W.rho ≠ 0 := ne_of_gt hrho
  have _hp : W.p ≠ 0 := ne_of_gt hp
  unfold IdealGas.to_primitive IdealGas.to_conservative IdealGas.pressure
    IdealGas.total_energy IdealGas.internal_energy
  ext
  · rfl
  · field_simp
  · field_simp
    ring

/-- Witness for C3 at gamma = 2, W = (1, 0, 1). -/
theorem C3_eos_round_trip_witness :
    (1:ℝ) < 2 ∧ (0:ℝ) < 1 ∧
      IdealGas.to_primitive ⟨2⟩ (IdealGas.to_conservative ⟨2⟩ ⟨1, 0, 1⟩) = ⟨1, 0, 1⟩ :=
  ⟨by norm_num, by norm_num,
    C3_eos_round_trip ⟨2⟩ ⟨1, 0, 1⟩ (by norm_num) (by norm_num) (by norm_num)⟩

/-- C4: each of the Minmod, Van Leer, Superbee and MC limiters stays in the
TVD admissibility region 0 <= phi(r) <= min(2r, 2) for every r >= 0. -/
theorem C4_limiter_tvd (r : ℝ) (hr : 0 ≤ r) :
    (0 ≤ MinmodLimiter r ∧ MinmodLimiter r ≤ min (2 * r) 2) ∧
    (0 ≤ VanLeerLimiter r ∧ VanLeerLimiter r ≤ min (2 * r) 2) ∧
    (0 ≤ SuperbeeLimiter r ∧ SuperbeeLimiter r ≤ min (2 * r) 2) ∧
    (0 ≤ MCLimiter r ∧ MCLimiter r ≤ min (2 * r) 2) := by
  have h02 : (0:ℝ) ≤ min (2 * r) 2 := le_min (by linarith) (by norm_num)
  refine ⟨⟨le_max_left _ _, ?_⟩, ⟨?_, ?_⟩, ⟨?_, ?_⟩, ⟨le_max_left _ _, ?_⟩⟩
  · exact max_le h02 (le_min (le_trans (min_le_right 1 r) (by linarith))
      (le_trans (min_le_left 1 r) (by norm_num)))
  · unfold VanLeerLimiter
    rw [abs_of_nonneg hr]
    exact div_nonneg (by linarith) (by linarith)
  · unfold VanLeerLimiter
    rw [abs_of_nonneg hr]
    have h1r : (0:ℝ) < 1 + r := by linarith
    refine le_min ?_ ?_
    · rw [div_le_iff₀ h1r]
      nlinarith
    · rw [div_le_iff₀ h1r]
      nlinarith
  · exact le_trans (le_max_left 0 (min (2 * r) 1)) (le_max_left _ _)
  · refine max_le (max_le h02 (le_min (min_le_left _ _)
      (le_trans (min_le_right (2 * r) 1) (by norm_num)))) (le_min ?_ (min_le_right r 2))
    exact le_trans (min_le_left r 2) (by linarith)
  · exact max_le h02 (le_min (le_trans (min_le_left _ _) (min_le_left _ _))
      (min_le_right _ 2))

/-- Witness for C4 at r = 1. -/
theorem C4_limiter_tvd_witness :
    (0:ℝ) ≤ 1 ∧
    ((0 ≤ MinmodLimiter 1 ∧ MinmodLimiter 1 ≤ min (2 * 1) 2) ∧
     (0 ≤ VanLeerLimiter 1 ∧ VanLeerLimiter 1 ≤ min (2 * 1) 2) ∧
     (0 ≤ SuperbeeLimiter 1 ∧ SuperbeeLimiter 1 ≤ min (2 * 1) 2) ∧
     (0 ≤ MCLimiter 1 ∧ MCLimiter 1 ≤ min (2 * 1) 2)) :=
  ⟨by norm_num, C4_limiter_tvd 1 (by norm_num)⟩

/-- C2: applied to the identical pair (U, U) with positive density and
pressure and gamma above one, the LLF, HLL and HLLC fluxes each return
exactly the physical Euler flux of U. -/
theorem C2_flux_consistency (eos : IdealGas) (U : ConservativeVars)
    (hgamma : 1 < eos.gamma) (hrho : 0 < U.rho) (hp : 0 < eos.pressure U) :
    LLFFlux U U eos = eos.flux U ∧ HLLFlux U U eos = eos.flux U ∧
      HLLCFlux U U eos = eos.flux U := by
  have hr : U.rho ≠ 0 := ne_of_gt hrho
  have hcpos : 0 < eos.sound_speed U.rho (eos.pressure U) := by
    apply Real.sqrt_pos.mpr
    exact div_pos (mul_pos (by linarith) hp) hrho
  set c := eos.sound_speed U.rho (eos.pressure U) with hc
  have hcne : c ≠ 0 := ne_of_gt hcpos
  refine ⟨?_, ?_, ?_⟩
  · ext <;> simp [LLFFlux] <;> ring
  · simp only [HLLFlux, min_self, max_self]
    simp only [← hc]
    have hcc : c + c ≠ 0 := ne_of_gt (by linarith)
    split_ifs with h1 h2
    · rfl
    · rfl
    · ext <;> simp <;> rw [div_eq_iff hcc] <;> ring
  · simp only [HLLCFlux, min_self, max_self]
    simp only [← hc]
    have hdne : U.rho * ((U.rho_u / U.rho - c) - U.rho_u / U.rho) -
        U.rho * ((U.rho_u / U.rho + c) - U.rho_u / U.rho) ≠ 0 := by
      have hd : U.rho * ((U.rho_u / U.rho - c) - U.rho_u / U.rho) -
          U.rho * ((U.rho_u / U.rho + c) - U.rho_u / U.rho) = -(2 * U.rho * c) := by
        ring
      rw [hd]
      exact neg_ne_zero.mpr (mul_ne_zero (mul_ne_zero two_ne_zero hr) hcne)
    have hSstar : (eos.pressure U - eos.pressure U +
        U.rho * (U.rho_u / U.rho) * ((U.rho_u / U.rho - c) - U.rho_u / U.rho) -
        U.rho * (U.rho_u / U.rho) * ((U.rho_u / U.rho + c) - U.rho_u / U.rho)) /
        (U.rho * ((U.rho_u / U.rho - c) - U.rho_u / U.rho) -
          U.rho * ((U.rho_u / U.rho + c) - U.rho_u / U.rho)) = U.rho_u / U.rho := by
      rw [div_eq_iff hdne]
      ring
    have hmc : (U.rho_u / U.rho - c) - U.rho_u / U.rho ≠ 0 := by
      have h3 : (U.rho_u / U.rho - c) - U.rho_u / U.rho = -c := by ring
      rw [h3]
      exact neg_ne_zero.mpr hcne
    have hpc : (U.rho_u / U.rho + c) - U.rho_u / U.rho ≠ 0 := by
      have h3 : (U.rho_u / U.rho + c) - U.rho_u / U.rho = c := by ring
      rw [h3]
      exact hcne
    rw [hSstar]
    split_ifs with h1 h2 h3
    · rfl
    · rfl
    · ext <;> simp <;> field_simp
    · ext <;> simp <;> field_simp

/-- Witness for C2 at gamma = 2, U = (1, 0, 1/2). -/
theorem C2_flux_consistency_witness :
    (1:ℝ) < 2 ∧ (0:ℝ) < 1 ∧ 0 < IdealGas.pressure ⟨2⟩ ⟨1, 0, 1/2⟩ ∧
      (LLFFlux ⟨1, 0, 1/2⟩ ⟨1, 0, 1/2⟩ ⟨2⟩ = IdealGas.flux ⟨2⟩ ⟨1, 0, 1/2⟩ ∧
       HLLFlux ⟨1, 0, 1/2⟩ ⟨1, 0, 1/2⟩ ⟨2⟩ = IdealGas.flux ⟨2⟩ ⟨1, 0, 1/2⟩ ∧
       HLLCFlux ⟨1, 0, 1/2⟩ ⟨1, 0, 1/2⟩ ⟨2⟩ = IdealGas.flux ⟨2⟩ ⟨1, 0, 1/2⟩) :=
  ⟨by norm_num, by norm_num, by norm_num [IdealGas.pressure],
    C2_flux_consistency ⟨2⟩ ⟨1, 0, 1/2⟩ (by norm_num) (by norm_num)
      (by norm_num [IdealGas.pressure])⟩

/-- C1: the flux factory maps LLF, Rusanov, HLL and HLLC to their schemes,
but FluxScheme.MoversLE falls through the switch to the LLF fallback, so a
solver configured with MoversLE computes every interface flux with LLFFlux,
not MoversLEFlux. -/
theorem C1_create_flux_dispatch :
    create_flux FluxScheme.LLF = FluxVariant.llf ∧
    create_flux FluxScheme.Rusanov = FluxVariant.rusanov ∧
    create_flux FluxScheme.HLL = FluxVariant.hll ∧
    create_flux FluxScheme.HLLC = FluxVariant.hllc ∧
    create_flux FluxScheme.MoversLE = FluxVariant.llf ∧
    ∀ (U_L U_R : ConservativeVars) (eos : IdealGas),
      compute_flux (create_flux FluxScheme.MoversLE) U_L U_R eos = LLFFlux U_L U_R eos :=
  ⟨rfl, rfl, rfl, rfl, rfl, fun _ _ _ => rfl⟩

/-- C10: under 0 <= L_min <= L_max, the MoversLE per-component dissipation
coefficient always lies in the closed interval from 0 to L_max. -/
theorem C10_dissipation_bounds (Fr Fl Ur Ul L_max L_min : ℝ)
    (h0 : 0 ≤ L_min) (h1 : L_min ≤ L_max) :
    0 ≤ compute_dissipation Fr Fl Ur Ul L_max L_min ∧
      compute_dissipation Fr Fl Ur Ul L_max L_min ≤ L_max := by
  simp only [compute_dissipation]
  split_ifs <;> constructor <;> linarith

/-- Witness for C10 at Fr = 1, Fl = 0, Ur = 1, Ul = 0, L_max = 2, L_min = 1. -/
theorem C10_dissipation_bounds_witness :
    (0:ℝ) ≤ 1 ∧ (1:ℝ) ≤ 2 ∧
      (0 ≤ compute_dissipation 1 0 1 0 2 1 ∧ compute_dissipation 1 0 1 0 2 1 ≤ 2) :=
  ⟨by norm_num, by norm_num, C10_dissipation_bounds 1 0 1 0 2 1 (by norm_num) (by norm_num)⟩

/-- C5: on a spatially constant stencil (cells i-1, i, i+1, i+2 all equal),
MUSCL reconstruction returns the unchanged cell averages (W i, W (i+1))
exactly, for every supported limiter. -/
theorem C5_muscl_uniform (W : ℕ → PrimitiveVars) (i : ℕ) (lim : LimiterVariant)
    (h1 : W (i - 1) = W i) (h2 : W (i + 1) = W i) (h3 : W (i + 2) = W i) :
    MUSCLReconstructV W i lim = (W i, W (i + 1)) := by
  simp [MUSCLReconstructV, MUSCLReconstruct, musclComponent, h1, h2, h3]

/-- Witness for C5 on the constant field W = (1, 0, 1) at i = 1 with the
minmod limiter. -/
theorem C5_muscl_uniform_witness :
    (fun _ : ℕ => PrimitiveVars.mk 1 0 1) ((1:ℕ) - 1) = (fun _ : ℕ => PrimitiveVars.mk 1 0 1) 1 ∧
    MUSCLReconstructV (fun _ : ℕ => PrimitiveVars.mk 1 0 1) 1 LimiterVariant.minmod =
      ((fun _ : ℕ => PrimitiveVars.mk 1 0 1) 1, (fun _ : ℕ => PrimitiveVars.mk 1 0 1) (1 + 1)) :=
  ⟨rfl, C5_muscl_uniform (fun _ => ⟨1, 0, 1⟩) 1 LimiterVariant.minmod rfl rfl rfl⟩

/-- C6: mesh construction signals invalid_argument exactly when
num_cells <= 0 or xmax <= xmin; on success the stored cell width is
(xmax - xmin) / num_cells and is strictly positive. -/
theorem C6_mesh_validation (xmin xmax : ℝ) (n : ℤ) :
    ((∃ e, mkMesh1D xmin xmax n = .error e) ↔ (n ≤ 0 ∨ xmax ≤ xmin)) ∧
    (∀ m : Mesh1D, mkMesh1D xmin xmax n = .ok m →
      m.dx = (xmax - xmin) / (n : ℝ) ∧ 0 < m.dx) := by
  unfold mkMesh1D
  split_ifs with hn hx
  · refine ⟨⟨fun _ => Or.inl hn, fun _ => ⟨_, rfl⟩⟩, fun m hm => by cases hm⟩
  · refine ⟨⟨fun _ => Or.inr hx, fun _ => ⟨_, rfl⟩⟩, fun m hm => by cases hm⟩
  · push_neg at hn hx
    refine ⟨⟨fun h => ?_, fun h => ?_⟩, fun m hm => ?_⟩
    · obtain ⟨e, he⟩ := h
      cases he
    · rcases h with h | h
      · exact absurd h (not_le.mpr hn)
      · exact absurd h (not_le.mpr hx)
    · cases hm
      refine ⟨rfl, div_pos (by linarith) ?_⟩
      exact_mod_cast hn

/-- Witness for C6 at xmin = 0, xmax = 1, n = 10. -/
theorem C6_mesh_validation_witness :
    ((∃ e, mkMesh1D 0 1 10 = .error e) ↔ ((10:ℤ) ≤ 0 ∨ (1:ℝ) ≤ 0)) ∧
    (∀ m : Mesh1D, mkMesh1D 0 1 10 = .ok m →
      m.dx = ((1:ℝ) - 0) / ((10:ℤ) : ℝ) ∧ 0 < m.dx) :=
  C6_mesh_validation 0 1 10

/-- Helper: a fold of max is at least its initial accumulator. -/
theorem le_foldl_max (l : List ℝ) : ∀ a : ℝ, a ≤ l.foldl max a := by
  induction l with
  | nil => intro a; simp
  | cons x xs ih => intro a; exact le_trans (le_max_left a x) (ih (max a x))

/-- Helper: a fold of max bounds every list element. -/
theorem foldl_max_le_of_mem (l : List ℝ) :
    ∀ (a x : ℝ), x ∈ l → x ≤ l.foldl max a := by
  induction l with
  | nil =>
    intro a x hx
    cases hx
  | cons y ys ih =>
    intro a x hx
    rcases List.mem_cons.mp hx with h | h
    · subst h
      exact le_trans (le_max_right a x) (le_foldl_max ys (max a x))
    · exact ih (max a y) x h

/-- Helper: a fold of max returns the accumulator or a list element. -/
theorem foldl_max_eq_or_mem (l : List ℝ) :
    ∀ a : ℝ, l.foldl max a = a ∨ l.foldl max a ∈ l := by
  induction l with
  | nil => intro a; exact Or.inl rfl
  | cons y ys ih =>
    intro a
    rw [List.foldl_cons]
    rcases ih (max a y) with h | h
    · rw [h]
      rcases le_total y a with hy | hy
      · rw [max_eq_left hy]
        exact Or.inl rfl
      · rw [max_eq_right hy]
        exact Or.inr (List.mem_cons_self y ys)
    · exact Or.inr (List.mem_cons_of_mem y h)

/-- C7: compute_dt returns CFL * dx / M where M is the maximum of |u| + c
over the interior cells only; when that maximum is below the numerical
epsilon it is replaced by 1, so the result is CFL * dx. -/
theorem C7_compute_dt (cfl dx : ℝ) (eos : IdealGas) (U : ℕ → ConservativeVars)
    (N : ℕ) (hN : 0 < N) :
    ∃ M, (∃ k, k < N ∧ M = interior_speed eos U (first_interior + k)) ∧
      (∀ k, k < N → interior_speed eos U (first_interior + k) ≤ M) ∧
      compute_dt cfl dx eos U N = cfl * dx / (if M < constantsEpsilon then 1 else M) ∧
      (M < constantsEpsilon → compute_dt cfl dx eos U N = cfl * dx) := by
  have hspeed : ∀ j, 0 ≤ interior_speed eos U j := fun j =>
    add_nonneg (abs_nonneg _) (Real.sqrt_nonneg _)
  have hM : max_wave_speed eos U N =
      ((List.range N).map fun k => interior_speed eos U (first_interior + k)).foldl max 0 :=
    rfl
  refine ⟨max_wave_speed eos U N, ?_, ?_, rfl, ?_⟩
  · rcases foldl_max_eq_or_mem
        ((List.range N).map fun k => interior_speed eos U (first_interior + k)) 0 with h | h
    · refine ⟨0, hN, ?_⟩
      have hmem : interior_speed eos U (first_interior + 0) ∈
          (List.range N).map fun k => interior_speed eos U (first_interior + k) :=
        List.mem_map.mpr ⟨0, List.mem_range.mpr hN, rfl⟩
      have hle := foldl_max_le_of_mem _ 0 _ hmem
      rw [h] at hle
      have hge := hspeed (first_interior + 0)
      rw [hM, h]
      linarith
    · obtain ⟨k, hk, hkeq⟩ := List.mem_map.mp h
      refine ⟨k, List.mem_range.mp hk, ?_⟩
      rw [hM]
      exact hkeq.symm
  · intro k hk
    have hmem : interior_speed eos U (first_interior + k) ∈
        (List.range N).map fun j => interior_speed eos U (first_interior + j) :=
      List.mem_map.mpr ⟨k, List.mem_range.mpr hk, rfl⟩
    rw [hM]
    exact foldl_max_le_of_mem _ 0 _ hmem
  · intro h
    simp only [compute_dt]
    rw [if_pos h, div_one]

/-- Witness for C7 at cfl = 1, dx = 1, gamma = 2, constant state
(1, 0, 1/2), N = 1. -/
theorem C7_compute_dt_witness :
    0 < 1 ∧
    ∃ M, (∃ k, k < 1 ∧
        M = interior_speed ⟨2⟩ (fun _ => ⟨1, 0, 1/2⟩) (first_interior + k)) ∧
      (∀ k, k < 1 →
        interior_speed ⟨2⟩ (fun _ => ⟨1, 0, 1/2⟩) (first_interior + k) ≤ M) ∧
      compute_dt 1 1 ⟨2⟩ (fun _ => ⟨1, 0, 1/2⟩) 1 =
        1 * 1 / (if M < constantsEpsilon then 1 else M) ∧
      (M < constantsEpsilon → compute_dt 1 1 ⟨2⟩ (fun _ => ⟨1, 0, 1/2⟩) 1 = 1 * 1) :=
  ⟨by norm_num, C7_compute_dt 1 1 ⟨2⟩ (fun _ => ⟨1, 0, 1/2⟩) 1 (by norm_num)⟩

/-- C9: the reflective boundary writes exactly the two ghost cells per side,
giving each the density and energy of the mirrored interior cell at the
same offset and the negation of its momentum, and leaves every other cell
unchanged. -/
theorem C9_reflective_boundary (N : ℕ) (hN : num_ghosts ≤ N)
    (U : ℕ → ConservativeVars) :
    (∀ g, g < num_ghosts →
      is_interior N (first_interior + g) ∧
      reflective_apply_left U (first_interior - 1 - g) =
        ⟨(U (first_interior + g)).rho, -(U (first_interior + g)).rho_u,
          (U (first_interior + g)).E⟩) ∧
    (∀ j, j ≠ 0 → j ≠ 1 → reflective_apply_left U j = U j) ∧
    (∀ g, g < num_ghosts →
      is_interior N (last_interior N - g) ∧
      reflective_apply_right U N (last_interior N + 1 + g) =
        ⟨(U (last_interior N - g)).rho, -(U (last_interior N - g)).rho_u,
          (U (last_interior N - g)).E⟩) ∧
    (∀ j, j ≠ last_interior N + 1 → j ≠ last_interior N + 2 →
      reflective_apply_right U N j = U j) := by
  have hg2 : num_ghosts = 2 := rfl
  have hlast : last_interior N = N + 1 := by
    unfold last_interior num_ghosts
    omega
  rw [hg2] at hN
  refine ⟨?_, ?_, ?_, ?_⟩
  · intro g hg
    rw [hg2] at hg
    interval_cases g <;>
      refine ⟨by simp [is_interior, first_interior, num_ghosts, last_interior]; omega, ?_⟩ <;>
      simp +arith [reflective_apply_left, first_interior, num_ghosts, List.range_succ,
        Function.update_apply]
  · intro j h0 h1
    simp +arith [reflective_apply_left, first_interior, num_ghosts, List.range_succ,
      Function.update_apply, h0, h1]
  · intro g hg
    rw [hg2] at hg
    interval_cases g <;>
      refine ⟨by simp [is_interior, first_interior, num_ghosts, last_interior]; omega, ?_⟩ <;>
      simp +arith [reflective_apply_right, hlast, num_ghosts, List.range_succ,
        Function.update_apply]
  · intro j h1 h2
    rw [hlast] at h1 h2
    simp +arith [reflective_apply_right, hlast, num_ghosts, List.range_succ,
      Function.update_apply, h1, h2]

/-- Witness for C9 at N = 2 with the index-dependent field indexField. -/
theorem C9_reflective_boundary_witness :
    num_ghosts ≤ 2 ∧
    ((∀ g, g < num_ghosts →
      is_interior 2 (first_interior + g) ∧
      reflective_apply_left indexField (first_interior - 1 - g) =
        ⟨(indexField (first_interior + g)).rho, -(indexField (first_interior + g)).rho_u,
          (indexField (first_interior + g)).E⟩) ∧
    (∀ j, j ≠ 0 → j ≠ 1 → reflective_apply_left indexField j = indexField j) ∧
    (∀ g, g < num_ghosts →
      is_interior 2 (last_interior 2 - g) ∧
      reflective_apply_right indexField 2 (last_interior 2 + 1 + g) =
        ⟨(indexField (last_interior 2 - g)).rho, -(indexField (last_interior 2 - g)).rho_u,
          (indexField (last_interior 2 - g)).E⟩) ∧
    (∀ j, j ≠ last_interior 2 + 1 → j ≠ last_interior 2 + 2 →
      reflective_apply_right indexField 2 j = indexField j)) :=
  ⟨by decide, C9_reflective_boundary 2 (by decide) indexField⟩

/-- Helper: lookup through a left fold writing v k at index a + k for
k = 0 .. n-1, when the written value does not read the accumulator. -/
theorem foldl_update_range_apply {α : Type} (v : ℕ → α) (a : ℕ) :
    ∀ (n : ℕ) (old : ℕ → α) (j : ℕ),
      ((List.range n).foldl (fun f k => Function.update f (a + k) (v k)) old) j =
        if a ≤ j ∧ j < a + n then v (j - a) else old j := by
  intro n
  induction n with
  | zero =>
    intro old j
    rw [List.range_zero, List.foldl_nil, if_neg (by omega)]
  | succ n ih =>
    intro old j
    rw [List.range_succ, List.foldl_append, List.foldl_cons, List.foldl_nil]
    rcases eq_or_ne j (a + n) with hj | hj
    · subst hj
      rw [Function.update_same, if_pos ⟨Nat.le_add_right a n, by omega⟩]
      congr 1
      omega
    · rw [Function.update_noteq hj, ih old j]
      by_cases h1 : a ≤ j ∧ j < a + n
      · rw [if_pos h1, if_pos ⟨h1.1, by omega⟩]
      · rw [if_neg h1, if_neg (by omega)]

/-- Helper: lookup through the zeroing loop of compute_rhs. -/
theorem foldl_update_zero_apply (old : ℕ → ConservativeVars) :
    ∀ (n : ℕ) (j : ℕ),
      ((List.range n).foldl
        (fun d i => Function.update d i ConservativeVars.zero) old) j =
        if j < n then ConservativeVars.zero else old j := by
  intro n
  induction n with
  | zero =>
    intro j
    rw [List.range_zero, List.foldl_nil, if_neg (by omega)]
  | succ n ih =>
    intro j
    rw [List.range_succ, List.foldl_append, List.foldl_cons, List.foldl_nil]
    rcases eq_or_ne j n with hj | hj
    · subst hj
      rw [Function.update_same, if_pos (by omega)]
    · rw [Function.update_noteq hj, ih j]
      by_cases h1 : j < n
      · rw [if_pos h1, if_pos (by omega)]
      · rw [if_neg h1, if_neg (by omega)]

/-- Helper: pointwise value of compute_rhs. Interior cells receive the flux
divergence (F_left - F_right) / dx built from freshly written interface
fluxes, every other cell below the total count is zeroed, and cells beyond
the buffer keep the old scratch contents. -/
theorem compute_rhs_apply (fluxv : FluxVariant) (limiterv : LimiterVariant)
    (order : ℤ) (eos : IdealGas) (dx : ℝ) (N : ℕ)
    (U : ℕ → ConservativeVars) (fluxes0 dU0 : ℕ → ConservativeVars) (i : ℕ) :
    compute_rhs fluxv limiterv order eos dx N U fluxes0 dU0 i =
      if 2 ≤ i ∧ i < 2 + N then
        (interface_flux fluxv limiterv order eos U
            (fun t => eos.to_primitive (U t)) (i - 1) -
          interface_flux fluxv limiterv order eos U
            (fun t => eos.to_primitive (U t)) i) * (1 / dx)
      else if i < total_cells N then ConservativeVars.zero else dU0 i := by
  simp only [compute_rhs, first_interior, num_ghosts]
  rw [foldl_update_range_apply]
  by_cases hc : 2 ≤ i ∧ i < 2 + N
  · rw [if_pos hc, if_pos hc]
    have h1 : 2 + (i - 2) = i := by omega
    rw [h1]
    simp only [foldl_update_range_apply]
    have hca : 2 ≤ i ∧ i < 2 + (N + 1) := by omega
    have hcb : 2 ≤ i + 1 ∧ i + 1 < 2 + (N + 1) := by omega
    rw [if_pos hca, if_pos hcb]
    have h2 : 2 - 1 + (i - 2) = i - 1 := by omega
    have h3 : 2 - 1 + (i + 1 - 2) = i := by omega
    rw [h2, h3]
  · rw [if_neg hc, if_neg hc]
    rw [foldl_update_zero_apply]

/-- C8: the right-hand-side callback writes a derivative buffer that is
zero at every non-interior index and equals (F_left - F_right) / dx at
every interior index, where the interface fluxes are computed from the
boundary-applied copy of the input; the result does not depend on the
stale scratch contents. The callback itself is a pure function of the
input array (span of const in the source), so the input is unmodified. -/
theorem C8_rhs_callback (bcL bcR : BoundaryVariant) (fluxv : FluxVariant)
    (limiterv : LimiterVariant) (order : ℤ) (eos : IdealGas) (dx : ℝ) (N : ℕ)
    (U_in fluxes0 dU0 : ℕ → ConservativeVars) (i : ℕ) :
    (is_interior N i →
      rhs_func bcL bcR fluxv limiterv order eos dx N U_in fluxes0 dU0 i =
        (interface_flux fluxv limiterv order eos
            (apply_right_boundary bcR (apply_left_boundary bcL U_in N) N)
            (fun t => eos.to_primitive
              (apply_right_boundary bcR (apply_left_boundary bcL U_in N) N t)) (i - 1) -
          interface_flux fluxv limiterv order eos
            (apply_right_boundary bcR (apply_left_boundary bcL U_in N) N)
            (fun t => eos.to_primitive
              (apply_right_boundary bcR (apply_left_boundary bcL U_in N) N t)) i) *
          (1 / dx)) ∧
    (¬ is_interior N i → i < total_cells N →
      rhs_func bcL bcR fluxv limiterv order eos dx N U_in fluxes0 dU0 i =
        ConservativeVars.zero) := by
  constructor
  · intro hi
    unfold is_interior first_interior last_interior num_ghosts at hi
    simp only [rhs_func]
    rw [compute_rhs_apply, if_pos (by omega)]
  · intro hni hlt
    unfold is_interior first_interior last_interior num_ghosts at hni
    simp only [rhs_func]
    rw [compute_rhs_apply, if_neg (by omega), if_pos hlt]

/-- Witness for C8 at i = 2, N = 1, first order, LLF flux, transmissive
boundaries, with the indexField state and zero scratch buffers. -/
theorem C8_rhs_callback_witness :
    (is_interior 1 2 →
      rhs_func BoundaryVariant.transmissive BoundaryVariant.transmissive
          FluxVariant.llf LimiterVariant.minmod 1 ⟨2⟩ 1 1 indexField
          (fun _ => ConservativeVars.zero) (fun _ => ConservativeVars.zero) 2 =
        (interface_flux FluxVariant.llf LimiterVariant.minmod 1 ⟨2⟩
            (apply_right_boundary BoundaryVariant.transmissive
              (apply_left_boundary BoundaryVariant.transmissive indexField 1) 1)
            (fun t => IdealGas.to_primitive ⟨2⟩
              (apply_right_boundary BoundaryVariant.transmissive
                (apply_left_boundary BoundaryVariant.transmissive indexField 1) 1 t)) (2 - 1) -
          interface_flux FluxVariant.llf LimiterVariant.minmod 1 ⟨2⟩
            (apply_right_boundary BoundaryVariant.transmissive
              (apply_left_boundary BoundaryVariant.transmissive indexField 1) 1)
            (fun t => IdealGas.to_primitive ⟨2⟩
              (apply_right_boundary BoundaryVariant.transmissive
                (apply_left_boundary BoundaryVariant.transmissive indexField 1) 1 t)) 2) *
          ((1 : ℝ) / 1)) ∧
    (¬ is_interior 1 2 → 2 < total_cells 1 →
      rhs_func BoundaryVariant.transmissive BoundaryVariant.transmissive
          FluxVariant.llf LimiterVariant.minmod 1 ⟨2⟩ 1 1 indexField
          (fun _ => ConservativeVars.zero) (fun _ => ConservativeVars.zero) 2 =
        ConservativeVars.zero) :=
  C8_rhs_callback BoundaryVariant.transmissive BoundaryVariant.transmissive
    FluxVariant.llf LimiterVariant.minmod 1 ⟨2⟩ 1 1 indexField
    (fun _ => ConservativeVars.zero) (fun _ => ConservativeVars.zero) 2

end Euler1D
